import Mathlib

/-!
# Verification of the vibebox VM supervisor against its specification

Shallow embedding of the supervisor's reference-counted shutdown state
machine (`src/vm_manager.rs`, `manager_event_loop`), the serial-console
`OutputMonitor` (`src/vm.rs`), the IPv4 discovery parser
(`src/instance.rs`), mount-spec rewriting (`src/vm_manager.rs`),
instance-config persistence (`src/instance.rs`, `src/session_manager.rs`),
the spawn lock (`src/vm_manager.rs`) and guest-script upload
(`src/vm.rs`).  Machine integers (`usize`) are modelled as `Nat` with
explicit saturation at `2^64 - 1`; `Instant` values are modelled as `Nat`
milliseconds.
-/

namespace Vibebox

/-! ## Supervisor event loop (src/vm_manager.rs, manager_event_loop) -/

/-- `usize::MAX` on the 64-bit targets the program supports. -/
def USIZE_MAX : Nat := 2 ^ 64 - 1

/-- `const SHUTDOWN_RETRY_MS: u64 = 500;` -/
def SHUTDOWN_RETRY_MS : Nat := 500

/-- `const HARD_SHUTDOWN_TIMEOUT_MS: u64 = 12_000;` (the `#[cfg(not(test))]`
value; test builds override it to 1000). -/
def HARD_SHUTDOWN_TIMEOUT_MS : Nat := 12000

/-- `fn force_exit` calls `std::process::exit(1)` in non-test builds. -/
def forceExitCode : Nat := 1

/-- The bytes written to the guest to request shutdown:
`b"systemctl poweroff\n"`. -/
def poweroffCommand : String := "systemctl poweroff\n"

/-- The mutable locals of `manager_event_loop`: `ref_count: usize`,
`shutdown_deadline: Option<Instant>`, `shutdown_sent: bool`,
`hard_deadline: Option<Instant>`. -/
structure ManagerState where
  ref_count : Nat
  shutdown_deadline : Option Nat
  shutdown_sent : Bool
  hard_deadline : Option Nat
  deriving DecidableEq, Repr

/-- Initial state of `manager_event_loop` before any event. -/
def initManagerState : ManagerState :=
  { ref_count := 0, shutdown_deadline := none, shutdown_sent := false,
    hard_deadline := none }

/-- Events consumed by the loop.  `inc`/`dec` carry the time at which the
event is processed (the `Instant::now()` read inside the handler); `tick`
is the `RecvTimeoutError::Timeout` branch and carries the time plus
whether a VM input writer is available and its channel accepts the send
(`vm_input_tx` is `Some` and `tx.send(..)` returns `Ok`).  `VmExited`
terminates the loop and is not part of the state transitions. -/
inductive ManagerEvent where
  | inc (now : Nat)
  | dec (now : Nat)
  | tick (now : Nat) (writerOk : Bool)
  deriving DecidableEq, Repr

/-- Result of one handler execution: the successor state, the messages
written to the VM input channel, and whether `force_exit` fired. -/
structure StepResult where
  state : ManagerState
  out : List String
  forced : Bool
  deriving DecidableEq, Repr

/-- The `Ok(ManagerEvent::Inc(..))` arm: `ref_count.saturating_add(1)`,
clear both deadlines, clear `shutdown_sent`. -/
def stepInc (s : ManagerState) : ManagerState :=
  { ref_count := min (s.ref_count + 1) USIZE_MAX,
    shutdown_deadline := none,
    shutdown_sent := false,
    hard_deadline := none }

/-- The `Ok(ManagerEvent::Dec(..))` arm: `ref_count.saturating_sub(1)`;
when the count reaches zero, arm `shutdown_deadline = now + grace`. -/
def stepDec (grace now : Nat) (s : ManagerState) : ManagerState :=
  let rc := s.ref_count - 1
  if rc = 0 then
    { s with ref_count := rc, shutdown_deadline := some (now + grace) }
  else
    { s with ref_count := rc }

/-- The `Err(RecvTimeoutError::Timeout)` arm.  First the
shutdown-deadline block (send poweroff if a writer is available,
otherwise arm the hard deadline and reschedule by `SHUTDOWN_RETRY_MS`),
then the hard-deadline force-exit check. -/
def stepTick (writerOk : Bool) (now : Nat) (s : ManagerState) : StepResult :=
  let phase1 : ManagerState × List String :=
    match s.shutdown_deadline with
    | some deadline =>
      if deadline ≤ now ∧ s.shutdown_sent = false then
        let hd : Option Nat :=
          match s.hard_deadline with
          | none => some (now + HARD_SHUTDOWN_TIMEOUT_MS)
          | some h => some h
        if writerOk then
          ({ s with shutdown_sent := true,
                    shutdown_deadline := none,
                    hard_deadline := some (now + HARD_SHUTDOWN_TIMEOUT_MS) },
           [poweroffCommand])
        else
          ({ s with hard_deadline := hd,
                    shutdown_deadline := some (now + SHUTDOWN_RETRY_MS) },
           [])
      else (s, [])
    | none => (s, [])
  let s1 := phase1.1
  let forced : Bool :=
    (s1.ref_count == 0) &&
      match s1.hard_deadline with
      | some h => decide (h ≤ now)
      | none => false
  ⟨s1, phase1.2, forced⟩

/-- One loop iteration on an event. -/
def managerStep (grace : Nat) (s : ManagerState) : ManagerEvent → StepResult
  | .inc _ => ⟨stepInc s, [], false⟩
  | .dec now => ⟨stepDec grace now s, [], false⟩
  | .tick now w => stepTick w now s

/-- Folding the loop over an event sequence (states only; this
over-approximates real runs, which stop at `VmExited` or a force exit, so
every invariant proved over it covers the real loop). -/
def managerRun (grace : Nat) (s : ManagerState) (events : List ManagerEvent) :
    ManagerState :=
  events.foldl (fun st e => (managerStep grace st e).state) s

/-- States the loop can reach from its initial state. -/
def Reachable (grace : Nat) (s : ManagerState) : Prop :=
  ∃ events, managerRun grace initManagerState events = s

/-- `recv_timeout` deadline computation at the top of the loop
(`saturating_duration_since`, min of the two armed deadlines, one second
when neither is armed). -/
def loopTimeout (s : ManagerState) (now : Nat) : Nat :=
  match s.shutdown_deadline, s.hard_deadline with
  | some sd, some hd => (if sd ≤ hd then sd else hd) - now
  | some sd, none => sd - now
  | none, some hd => hd - now
  | none, none => 1000

/-! ### Event-loop invariants and claim theorems -/

/-- A pending shutdown deadline implies no connected clients: the deadline
is armed only when `ref_count` hits zero and every `Inc` clears it. -/
def DeadlineInv (s : ManagerState) : Prop :=
  ∀ d, s.shutdown_deadline = some d → s.ref_count = 0

theorem deadlineInv_init : DeadlineInv initManagerState := by
  intro d h
  simp [initManagerState] at h

theorem deadlineInv_step (grace : Nat) (s : ManagerState) (e : ManagerEvent)
    (hs : DeadlineInv s) : DeadlineInv (managerStep grace s e).state := by
  obtain ⟨rc, sd, ss, hd⟩ := s
  cases e with
  | inc now =>
    intro d h
    simp [managerStep, stepInc] at h
  | dec now =>
    intro d h
    by_cases hz : rc - 1 = 0
    · simp [managerStep, stepDec, hz]
    · have hsd : sd = some d := by
        simpa [managerStep, stepDec, hz] using h
      have hrc : rc = 0 := hs d hsd
      omega
  | tick now w =>
    intro d h
    rcases sd with _ | d0
    · simp [managerStep, stepTick] at h
    · have hrc : rc = 0 := hs d0 rfl
      by_cases hc : d0 ≤ now ∧ ss = false
      · cases w
        · simpa [managerStep, stepTick, hc] using hrc
        · simp [managerStep, stepTick, hc] at h
      · simpa [managerStep, stepTick, hc] using hrc

theorem deadlineInv_run (grace : Nat) (events : List ManagerEvent)
    (s : ManagerState) (hs : DeadlineInv s) :
    DeadlineInv (managerRun grace s events) := by
  induction events generalizing s with
  | nil => exact hs
  | cons e rest ih =>
    exact ih _ (deadlineInv_step grace s e hs)

theorem deadlineInv_reachable (grace : Nat) (s : ManagerState)
    (h : Reachable grace s) : DeadlineInv s := by
  obtain ⟨events, rfl⟩ := h
  exact deadlineInv_run grace events _ deadlineInv_init

/-- C1: at a timer tick in the draining state (`ref_count = 0`, elapsed
`shutdown_deadline`, `shutdown_sent = false`) with a writer available,
exactly one `systemctl poweroff\n` message is written, `shutdown_sent`
becomes true, `shutdown_deadline` is cleared and `hard_deadline` becomes
`now + HARD_SHUTDOWN_TIMEOUT_MS`; and from any reachable state with
`ref_count ≥ 1` no step writes any poweroff bytes. -/
theorem c1_grace_tick_poweroff (grace now d : Nat) (s : ManagerState)
    (hrc : s.ref_count = 0) (hd : s.shutdown_deadline = some d)
    (helapsed : d ≤ now) (hsent : s.shutdown_sent = false) :
    (stepTick true now s).out = [poweroffCommand] ∧
    (stepTick true now s).state =
      { s with shutdown_sent := true,
               shutdown_deadline := none,
               hard_deadline := some (now + HARD_SHUTDOWN_TIMEOUT_MS) } ∧
    (∀ s2, Reachable grace s2 → 1 ≤ s2.ref_count →
       ∀ e, (managerStep grace s2 e).out = []) := by
  refine ⟨?_, ?_, ?_⟩
  · simp [stepTick, hd, helapsed, hsent]
  · simp [stepTick, hd, helapsed, hsent]
  · intro s2 hreach hrc2 e
    have hinv := deadlineInv_reachable grace s2 hreach
    cases e with
    | inc now2 => rfl
    | dec now2 => rfl
    | tick now2 w =>
      rcases hsd : s2.shutdown_deadline with _ | d2
      · simp [managerStep, stepTick, hsd]
      · exact absurd (hinv d2 hsd) (by omega)

/-- C2 as stated is false at the saturation boundary: after `usize::MAX`
`Inc` events the counter sits at `USIZE_MAX`, and one more `Inc` leaves
it there (`saturating_add`) instead of incrementing it. -/
theorem run_replicate_inc_ref_count (grace t n : Nat) (s : ManagerState)
    (h : s.ref_count ≤ USIZE_MAX) :
    (managerRun grace s (List.replicate n (ManagerEvent.inc t))).ref_count
      = min (s.ref_count + n) USIZE_MAX := by
  induction n generalizing s with
  | zero =>
    simp only [List.replicate_zero, managerRun, List.foldl]
    omega
  | succ n ih =>
    rw [List.replicate_succ]
    have hstep :
        managerRun grace s (ManagerEvent.inc t :: List.replicate n (ManagerEvent.inc t))
          = managerRun grace (stepInc s) (List.replicate n (ManagerEvent.inc t)) := rfl
    rw [hstep, ih (stepInc s) (by simp only [stepInc]; omega)]
    simp only [stepInc]
    omega

/-- Counterexample for C2: the `Inc` handler does not increment
`ref_count` when it already equals `usize::MAX`. -/
theorem c2_counterexample :
    (managerStep 1
        (managerRun 1 initManagerState
          (List.replicate USIZE_MAX (ManagerEvent.inc 0)))
        (ManagerEvent.inc 0)).state.ref_count ≠
      (managerRun 1 initManagerState
          (List.replicate USIZE_MAX (ManagerEvent.inc 0))).ref_count + 1 := by
  have hrun := run_replicate_inc_ref_count 1 0 USIZE_MAX initManagerState
    (by simp [initManagerState])
  have hzero : initManagerState.ref_count = 0 := rfl
  have hmax : (managerRun 1 initManagerState
      (List.replicate USIZE_MAX (ManagerEvent.inc 0))).ref_count = USIZE_MAX := by
    rw [hrun, hzero]
    omega
  simp only [managerStep, stepInc, hmax]
  have hpos : (0:Nat) < USIZE_MAX := by
    simp [USIZE_MAX]
  omega

/-- C2 amended: after any `Inc`, `shutdown_deadline` and `hard_deadline`
are cleared and `shutdown_sent` is false; `ref_count` becomes
`min (ref_count + 1) usize::MAX`, which is an increment by one whenever
the count is below `usize::MAX`. -/
theorem c2_inc_cancels_shutdown (grace now : Nat) (s : ManagerState) :
    ((managerStep grace s (ManagerEvent.inc now)).state.shutdown_deadline = none ∧
     (managerStep grace s (ManagerEvent.inc now)).state.hard_deadline = none ∧
     (managerStep grace s (ManagerEvent.inc now)).state.shutdown_sent = false ∧
     (managerStep grace s (ManagerEvent.inc now)).state.ref_count
        = min (s.ref_count + 1) USIZE_MAX) ∧
    (s.ref_count < USIZE_MAX →
     (managerStep grace s (ManagerEvent.inc now)).state.ref_count
        = s.ref_count + 1) := by
  constructor
  · simp [managerStep, stepInc]
  · intro h
    simp [managerStep, stepInc]
    omega

theorem c2_inc_cancels_shutdown_witness :
    initManagerState.ref_count < USIZE_MAX ∧
    (managerStep 1 initManagerState (ManagerEvent.inc 0)).state.ref_count
      = initManagerState.ref_count + 1 := by
  have h : initManagerState.ref_count < USIZE_MAX := by
    simp [initManagerState, USIZE_MAX]
  exact ⟨h, (c2_inc_cancels_shutdown 1 0 initManagerState).2 h⟩

/-- C3: with no writer available, a tick at an elapsed shutdown deadline
arms the hard deadline (if unset) and reschedules the shutdown deadline by
`SHUTDOWN_RETRY_MS`; a tick that observes `ref_count = 0` with an elapsed
hard deadline force-exits (exit code 1); and the loop's receive timeout
never sleeps past an armed hard deadline. -/
theorem c3_writer_absent_retry_and_force_exit (now d : Nat) (s : ManagerState) :
    (s.shutdown_deadline = some d → d ≤ now → s.shutdown_sent = false →
       (stepTick false now s).state =
         { s with
             hard_deadline := some (s.hard_deadline.getD (now + HARD_SHUTDOWN_TIMEOUT_MS)),
             shutdown_deadline := some (now + SHUTDOWN_RETRY_MS) } ∧
       (stepTick false now s).out = []) ∧
    (∀ h, s.ref_count = 0 → s.hard_deadline = some h → h ≤ now →
       (stepTick false now s).forced = true ∧ forceExitCode = 1) ∧
    (∀ h, s.hard_deadline = some h → loopTimeout s now ≤ h - now) := by
  refine ⟨?_, ?_, ?_⟩
  · intro hd helapsed hsent
    cases hhd : s.hard_deadline <;>
      simp [stepTick, hd, helapsed, hsent, hhd]
  · intro h hrc hhd helapsed
    refine ⟨?_, rfl⟩
    rcases hsd : s.shutdown_deadline with _ | d0
    · simp [stepTick, hsd, hhd, hrc, helapsed]
    · by_cases hc : d0 ≤ now ∧ s.shutdown_sent = false
      · simp [stepTick, hsd, hc, hhd, hrc, helapsed]
      · simp [stepTick, hsd, hc, hhd, hrc, helapsed]
  · intro h hhd
    rcases hsd : s.shutdown_deadline with _ | d0
    · simp [loopTimeout, hsd, hhd]
    · by_cases hle : d0 ≤ h <;> simp [loopTimeout, hsd, hhd, hle] <;> omega

theorem c3_writer_absent_retry_and_force_exit_witness :
    ((stepTick false 10 ⟨0, some 5, false, some 7⟩).state =
       { ref_count := 0, shutdown_deadline := some (10 + SHUTDOWN_RETRY_MS),
         shutdown_sent := false, hard_deadline := some 7 } ∧
     (stepTick false 10 ⟨0, some 5, false, some 7⟩).out = []) ∧
    ((stepTick false 10 ⟨0, some 5, false, some 7⟩).forced = true ∧
     forceExitCode = 1) ∧
    loopTimeout ⟨0, some 5, false, some 7⟩ 10 ≤ 7 - 10 := by
  have h := c3_writer_absent_retry_and_force_exit 10 5 ⟨0, some 5, false, some 7⟩
  refine ⟨?_, h.2.1 7 rfl rfl (by omega), h.2.2 7 rfl⟩
  have h1 := h.1 rfl (by omega) rfl
  simpa using h1

theorem c1_grace_tick_poweroff_witness :
    ((stepTick true 10 ⟨0, some 5, false, none⟩).out = [poweroffCommand] ∧
     (stepTick true 10 ⟨0, some 5, false, none⟩).state =
       { ref_count := 0, shutdown_deadline := none, shutdown_sent := true,
         hard_deadline := some (10 + HARD_SHUTDOWN_TIMEOUT_MS) }) ∧
    Reachable 1 ⟨1, none, false, none⟩ ∧
    (∀ e, (managerStep 1 ⟨1, none, false, none⟩ e).out = []) := by
  have h := c1_grace_tick_poweroff 1 10 5 ⟨0, some 5, false, none⟩ rfl rfl
    (by omega) rfl
  have hreach : Reachable 1 (⟨1, none, false, none⟩ : ManagerState) :=
    ⟨[ManagerEvent.inc 0], by simp [managerRun, managerStep, stepInc,
      initManagerState, USIZE_MAX]⟩
  exact ⟨⟨h.1, h.2.1⟩, hreach, fun e => h.2.2 _ hreach (by simp) e⟩

/-- C9: decrements saturate at zero (`saturating_sub`): a `Dec` at
`ref_count = 0` leaves the count at zero, and in general a `Dec` yields
the truncated predecessor, which is never negative. -/
theorem c9_dec_saturates_at_zero (grace now : Nat) (s : ManagerState)
    (h : s.ref_count = 0) :
    (managerStep grace s (ManagerEvent.dec now)).state.ref_count = 0 ∧
    (∀ s2 : ManagerState,
       (managerStep grace s2 (ManagerEvent.dec now)).state.ref_count
         = s2.ref_count - 1) := by
  constructor
  · simp [managerStep, stepDec, h]
  · intro s2
    by_cases hz : s2.ref_count - 1 = 0 <;> simp [managerStep, stepDec, hz]

theorem c9_dec_saturates_at_zero_witness :
    initManagerState.ref_count = 0 ∧
    (managerStep 1 initManagerState (ManagerEvent.dec 0)).state.ref_count = 0 := by
  exact ⟨rfl, (c9_dec_saturates_at_zero 1 0 initManagerState rfl).1⟩

/-! ## OutputMonitor (src/vm.rs) -/

/-- Rust `str::split_once(needle)`: split at the first occurrence of
`needle`, returning the part before and the part after it.  Strings are
modelled as `List Char`. -/
def splitOnce {α : Type} [DecidableEq α] (needle : List α) :
    List α → Option (List α × List α)
  | [] => if needle.isPrefixOf ([] : List α) then some ([], []) else none
  | c :: rest =>
    if needle.isPrefixOf (c :: rest) then some ([], (c :: rest).drop needle.length)
    else (splitOnce needle rest).map fun p => (c :: p.1, p.2)

theorem splitOnce_none_iff {α : Type} [DecidableEq α] (needle : List α) :
    ∀ l : List α, splitOnce needle l = none ↔ ¬ needle <:+: l := by
  intro l
  induction l with
  | nil =>
    by_cases hp : needle.isPrefixOf ([] : List α)
    · have : needle <+: ([] : List α) := List.isPrefixOf_iff_prefix.mp hp
      simp [splitOnce, hp, List.infix_nil, List.prefix_nil.mp this]
    · have : ¬ needle <+: ([] : List α) := fun hpre =>
        hp (List.isPrefixOf_iff_prefix.mpr hpre)
      simp only [List.prefix_nil] at this
      simp [splitOnce, hp, List.infix_nil, this]
  | cons c rest ih =>
    by_cases hp : needle.isPrefixOf (c :: rest)
    · have hpre : needle <+: c :: rest := List.isPrefixOf_iff_prefix.mp hp
      simp [splitOnce, hp, List.infix_cons_iff, hpre]
    · have hnpre : ¬ needle <+: c :: rest := fun hpre =>
        hp (List.isPrefixOf_iff_prefix.mpr hpre)
      simp [splitOnce, hp, List.infix_cons_iff, hnpre, ih]

theorem splitOnce_isSome_of_infix {α : Type} [DecidableEq α]
    {needle l : List α} (h : needle <:+: l) : (splitOnce needle l).isSome := by
  rcases he : splitOnce needle l with _ | p
  · exact absurd h ((splitOnce_none_iff needle l).mp he)
  · rfl

theorem splitOnce_some_decomp {α : Type} [DecidableEq α]
    {needle : List α} : ∀ {l a b : List α},
    splitOnce needle l = some (a, b) → l = a ++ needle ++ b := by
  intro l
  induction l with
  | nil =>
    intro a b h
    by_cases hp : needle.isPrefixOf ([] : List α)
    · have hn : needle = [] :=
        List.prefix_nil.mp (List.isPrefixOf_iff_prefix.mp hp)
      simp [splitOnce, hp] at h
      subst hn
      simp [h.1, h.2]
    · simp [splitOnce, hp] at h
  | cons c rest ih =>
    intro a b h
    by_cases hp : needle.isPrefixOf (c :: rest)
    · have hpre : needle <+: c :: rest := List.isPrefixOf_iff_prefix.mp hp
      obtain ⟨t, ht⟩ := hpre
      simp only [splitOnce, if_pos hp, Option.some.injEq, Prod.mk.injEq] at h
      rw [← h.1, ← h.2, ← ht, List.nil_append, List.drop_left]
    · simp only [splitOnce, if_neg hp, Option.map_eq_some'] at h
      obtain ⟨⟨p1, p2⟩, hsplit, heq⟩ := h
      have := ih hsplit
      simp only [Prod.mk.injEq] at heq
      rw [← heq.1, ← heq.2]
      simp [this]

theorem splitOnce_some_first {α : Type} [DecidableEq α]
    {needle : List α} : ∀ {l a b : List α},
    splitOnce needle l = some (a, b) →
    ∀ a2 b2 : List α, l = a2 ++ needle ++ b2 → a.length ≤ a2.length := by
  intro l
  induction l with
  | nil => intro a b h a2 b2 _; simp_all [splitOnce]
  | cons c rest ih =>
    intro a b h a2 b2 heq
    by_cases hp : needle.isPrefixOf (c :: rest)
    · simp only [splitOnce, if_pos hp, Option.some.injEq, Prod.mk.injEq] at h
      rw [← h.1]
      simp
    · simp only [splitOnce, if_neg hp, Option.map_eq_some'] at h
      obtain ⟨⟨p1, p2⟩, hsplit, hpair⟩ := h
      simp only [Prod.mk.injEq] at hpair
      rcases a2 with _ | ⟨c2, a2'⟩
      · exfalso
        apply hp
        apply List.isPrefixOf_iff_prefix.mpr
        simp only [List.nil_append] at heq
        exact ⟨b2, heq.symm⟩
      · simp only [List.cons_append, List.cons.injEq] at heq
        have := ih hsplit a2' b2 heq.2
        rw [← hpair.1]
        simp only [List.length_cons]
        omega

/-- States of `WaitResult` in `src/vm.rs`. -/
inductive WaitResult where
  | timeout
  | found
  deriving DecidableEq, Repr

/-- `OutputMonitor::push`: the guest-output reader appends the
(lossy-decoded) bytes to the shared buffer and wakes all waiters. -/
def monitorPush (buf bytes : List Char) : List Char := buf ++ bytes

/-- `OutputMonitor::wait_for` of `src/vm.rs`, modelled for a single
waiter.  The condition-variable predicate runs under the buffer lock:
whenever the buffer splits at `needle`, the buffer is replaced by the
remainder and the wait returns `Found`; otherwise the waiter sleeps until
the next `push` (an element of `arrivals`); when the wait window is
exhausted the result is `Timeout` and the buffer is unchanged.  Returns
the result together with the final buffer. -/
def wait_for (needle : List Char) :
    List Char → List (List Char) → WaitResult × List Char
  | buf, [] =>
    match splitOnce needle buf with
    | some p => (WaitResult.found, p.2)
    | none => (WaitResult.timeout, buf)
  | buf, a :: rest =>
    match splitOnce needle buf with
    | some p => (WaitResult.found, p.2)
    | none => wait_for needle (monitorPush buf a) rest

theorem wait_for_found_iff (needle : List Char) :
    ∀ (arrivals : List (List Char)) (buf : List Char),
    (wait_for needle buf arrivals).1 = WaitResult.found ↔
      ∃ k, k ≤ arrivals.length ∧
        needle <:+: buf ++ (arrivals.take k).flatten := by
  intro arrivals
  induction arrivals with
  | nil =>
    intro buf
    rcases he : splitOnce needle buf with _ | p
    · have hni := (splitOnce_none_iff needle buf).mp he
      simp [wait_for, he, hni]
    · have hinf : needle <:+: buf := by
        have := splitOnce_some_decomp he
        exact ⟨p.1, p.2, this.symm⟩
      constructor
      · intro _; exact ⟨0, by simp, by simpa using hinf⟩
      · intro _; simp [wait_for, he]
  | cons a rest ih =>
    intro buf
    rcases he : splitOnce needle buf with _ | p
    · have hni := (splitOnce_none_iff needle buf).mp he
      rw [show wait_for needle buf (a :: rest)
            = wait_for needle (monitorPush buf a) rest by simp [wait_for, he]]
      rw [ih (monitorPush buf a)]
      constructor
      · rintro ⟨k, hk, hinf⟩
        refine ⟨k + 1, by simpa using hk, ?_⟩
        simpa [monitorPush, List.take_succ_cons] using hinf
      · rintro ⟨k, hk, hinf⟩
        rcases k with _ | k'
        · simp at hinf
          exact absurd hinf hni
        · refine ⟨k', by simpa using hk, ?_⟩
          simpa [monitorPush, List.take_succ_cons] using hinf
    · have hinf : needle <:+: buf := by
        have := splitOnce_some_decomp he
        exact ⟨p.1, p.2, this.symm⟩
      constructor
      · intro _; exact ⟨0, by simp, by simpa using hinf⟩
      · intro _; simp [wait_for, he]

theorem wait_for_found_decomp (needle : List Char) :
    ∀ (arrivals : List (List Char)) (buf buf2 : List Char),
    wait_for needle buf arrivals = (WaitResult.found, buf2) →
    ∃ j pre, j ≤ arrivals.length ∧
      buf ++ (arrivals.take j).flatten = pre ++ needle ++ buf2 ∧
      ∀ pre2 suf2 : List Char,
        buf ++ (arrivals.take j).flatten = pre2 ++ needle ++ suf2 →
        pre.length ≤ pre2.length := by
  intro arrivals
  induction arrivals with
  | nil =>
    intro buf buf2 h
    rcases he : splitOnce needle buf with _ | p
    · simp [wait_for, he] at h
    · simp only [wait_for, he, Prod.mk.injEq] at h
      refine ⟨0, p.1, by simp, ?_, ?_⟩
      · simpa [← h.2] using splitOnce_some_decomp he
      · intro pre2 suf2 heq
        simp only [List.take_zero, List.flatten_nil, List.append_nil] at heq
        exact splitOnce_some_first he pre2 suf2 heq
  | cons a rest ih =>
    intro buf buf2 h
    rcases he : splitOnce needle buf with _ | p
    · rw [show wait_for needle buf (a :: rest)
            = wait_for needle (monitorPush buf a) rest by simp [wait_for, he]] at h
      obtain ⟨j, pre, hj, heq, hmin⟩ := ih (monitorPush buf a) buf2 h
      refine ⟨j + 1, pre, by simpa using hj, ?_, ?_⟩
      · simpa [monitorPush, List.take_succ_cons] using heq
      · intro pre2 suf2 heq2
        apply hmin pre2 suf2
        simpa [monitorPush, List.take_succ_cons] using heq2
    · simp only [wait_for, he, Prod.mk.injEq] at h
      refine ⟨0, p.1, by simp, ?_, ?_⟩
      · simpa [← h.2] using splitOnce_some_decomp he
      · intro pre2 suf2 heq
        simp only [List.take_zero, List.flatten_nil, List.append_nil] at heq
        exact splitOnce_some_first he pre2 suf2 heq

/-- C4: `wait_for(needle, t)` returns `Found` iff the buffer contained
`needle` at some point within the wait window (initial buffer plus any
prefix of the pushes arriving during the wait); on `Found` the buffer is
left holding exactly the text after the first occurrence of `needle` in
the buffer state where it was found, so a subsequent `wait_for(needle, 0)`
finds `needle` only if another occurrence remains in the leftover buffer
(or arrives later). -/
theorem c4_wait_for_consumes (needle buf : List Char)
    (arrivals : List (List Char)) :
    ((wait_for needle buf arrivals).1 = WaitResult.found ↔
       ∃ k, k ≤ arrivals.length ∧
         needle <:+: buf ++ (arrivals.take k).flatten) ∧
    (∀ buf2, wait_for needle buf arrivals = (WaitResult.found, buf2) →
       (∃ j pre, j ≤ arrivals.length ∧
          buf ++ (arrivals.take j).flatten = pre ++ needle ++ buf2 ∧
          ∀ pre2 suf2 : List Char,
            buf ++ (arrivals.take j).flatten = pre2 ++ needle ++ suf2 →
            pre.length ≤ pre2.length) ∧
       ((wait_for needle buf2 []).1 = WaitResult.found ↔ needle <:+: buf2)) :=
  ⟨wait_for_found_iff needle arrivals buf,
   fun buf2 h =>
     ⟨wait_for_found_decomp needle arrivals buf buf2 h,
      by simpa using wait_for_found_iff needle [] buf2⟩⟩

theorem c4_wait_for_consumes_witness :
    (wait_for "ab".data "xa".data ["bab".data] = (WaitResult.found, "ab".data)) ∧
    (∃ k, k ≤ 1 ∧ "ab".data <:+: "xa".data ++ (["bab".data].take k).flatten) ∧
    (∃ j pre, j ≤ 1 ∧
       "xa".data ++ (["bab".data].take j).flatten = pre ++ "ab".data ++ "ab".data ∧
       ∀ pre2 suf2 : List Char,
         "xa".data ++ (["bab".data].take j).flatten = pre2 ++ "ab".data ++ suf2 →
         pre.length ≤ pre2.length) ∧
    ((wait_for "ab".data "ab".data []).1 = WaitResult.found ↔
       "ab".data <:+: "ab".data) := by
  have hrun : wait_for "ab".data "xa".data ["bab".data]
      = (WaitResult.found, "ab".data) := by decide
  have h := c4_wait_for_consumes "ab".data "xa".data ["bab".data]
  have h2 := h.2 "ab".data hrun
  exact ⟨hrun, h.1.mp (by rw [hrun]), h2.1, h2.2⟩

/-! ## IPv4 discovery (src/instance.rs extract_ipv4 / is_ipv4_candidate,
src/vm_manager.rs spawn_manager_io) -/

/-- The character class accumulated by `extract_ipv4`:
`ch.is_ascii_digit() || ch == '.'`. -/
def isTokenChar (c : Char) : Bool := c.isDigit || c == '.'

/-- Rust `str::split(sep)` for a one-character separator, accumulator
form. -/
def splitOnCharGo (sep : Char) (cur : List Char) : List Char → List (List Char)
  | [] => [cur]
  | c :: rest =>
    if c = sep then cur :: splitOnCharGo sep [] rest
    else splitOnCharGo sep (cur ++ [c]) rest

/-- Rust `str::split(sep)` for a one-character separator. -/
def splitOnChar (sep : Char) (l : List Char) : List (List Char) :=
  splitOnCharGo sep [] l

/-- Decimal value of a digit string (the value computed by a successful
`u8::from_str`, before the range check). -/
def digitsVal (l : List Char) : Nat :=
  l.foldl (fun acc c => acc * 10 + (c.toNat - 48)) 0

/-- Digits-only part of `u8::from_str`: nonempty, all ASCII digits, value
at most 255 (Rust fails on overflow at an intermediate step; for digit
strings that is equivalent to the final value exceeding 255). -/
def parseU8Digits (s : List Char) : Option Nat :=
  if s ≠ [] ∧ s.all Char.isDigit then
    if digitsVal s ≤ 255 then some (digitsVal s) else none
  else none

/-- Rust `str::parse::<u8>()` (`u8::from_str`): an optional leading `+`
followed by at least one digit, value in 0..=255. -/
def parseU8 (s : List Char) : Option Nat :=
  match s with
  | [] => none
  | c :: rest => if c = '+' then parseU8Digits rest else parseU8Digits (c :: rest)

/-- `fn is_ipv4_candidate(candidate: &str) -> bool` of `src/instance.rs`:
split on `'.'`; exactly 4 parts; every part nonempty, at most 3 bytes and
parsing as `u8`. -/
def is_ipv4_candidate (candidate : List Char) : Bool :=
  let parts := splitOnChar '.' candidate
  parts.length == 4 &&
    parts.all fun p => !p.isEmpty && p.length ≤ 3 && (parseU8 p).isSome

/-- The scanning loop of `fn extract_ipv4`: accumulate maximal runs of
digit/dot characters in `current`; at each delimiter, if the finished run
is an IPv4 candidate return it, else clear and continue. -/
def extract_ipv4_go : List Char → List Char → Option (List Char)
  | _, [] => none
  | current, c :: rest =>
    if isTokenChar c then extract_ipv4_go (current ++ [c]) rest
    else if current ≠ [] then
      if is_ipv4_candidate current then some current
      else extract_ipv4_go [] rest
    else extract_ipv4_go [] rest

/-- `fn extract_ipv4(line: &str) -> Option<String>` of `src/instance.rs`:
the iterator is `line.chars().chain(once(' '))`, so a trailing space
flushes the final run. -/
def extract_ipv4 (line : List Char) : Option (List Char) :=
  extract_ipv4_go [] (line ++ [' '])

/-- Specification-side tokenizer: the maximal runs of ASCII digits and
dots of a line, in order. -/
def ipv4TokensGo (cur : List Char) : List Char → List (List Char)
  | [] => if cur = [] then [] else [cur]
  | c :: rest =>
    if isTokenChar c then ipv4TokensGo (cur ++ [c]) rest
    else if cur = [] then ipv4TokensGo [] rest
    else cur :: ipv4TokensGo [] rest

/-- The maximal digit/dot tokens of a line. -/
def ipv4Tokens (l : List Char) : List (List Char) := ipv4TokensGo [] l

/-- The specification's description of a valid-looking IPv4 token: four
dot-separated parts, each 1–3 digits denoting a value at most 255. -/
def SpecIpv4 (t : List Char) : Prop :=
  (splitOnChar '.' t).length = 4 ∧
  ∀ p ∈ splitOnChar '.' t,
    1 ≤ p.length ∧ p.length ≤ 3 ∧ (∀ c ∈ p, c.isDigit) ∧ digitsVal p ≤ 255

theorem extract_ipv4_go_eq (l : List Char) : ∀ cur : List Char,
    extract_ipv4_go cur (l ++ [' ']) =
      (ipv4TokensGo cur l).find? is_ipv4_candidate := by
  induction l with
  | nil =>
    intro cur
    by_cases hcur : cur = []
    · subst hcur
      rfl
    · by_cases hc : is_ipv4_candidate cur = true <;>
        simp [extract_ipv4_go, ipv4TokensGo, isTokenChar, hcur, hc, List.find?]
  | cons c rest ih =>
    intro cur
    by_cases htc : isTokenChar c = true
    · simp [extract_ipv4_go, ipv4TokensGo, htc, ih]
    · by_cases hcur : cur = []
      · subst hcur
        simp [extract_ipv4_go, ipv4TokensGo, htc, ih]
      · by_cases hc : is_ipv4_candidate cur = true <;>
          simp [extract_ipv4_go, ipv4TokensGo, htc, hcur, hc, List.find?, ih]

theorem extract_ipv4_eq_find_token (l : List Char) :
    extract_ipv4 l = (ipv4Tokens l).find? is_ipv4_candidate :=
  extract_ipv4_go_eq l []

/-- Tokens contain only digit/dot characters. -/
theorem ipv4TokensGo_chars (l : List Char) : ∀ cur : List Char,
    (∀ c ∈ cur, isTokenChar c = true) →
    ∀ t ∈ ipv4TokensGo cur l, ∀ c ∈ t, isTokenChar c = true := by
  induction l with
  | nil =>
    intro cur hcur t ht c hc
    by_cases he : cur = [] <;> simp [ipv4TokensGo, he] at ht
    subst ht
    exact hcur c hc
  | cons c0 rest ih =>
    intro cur hcur t ht c hc
    by_cases htc : isTokenChar c0 = true
    · simp only [ipv4TokensGo, if_pos htc] at ht
      refine ih (cur ++ [c0]) ?_ t ht c hc
      intro x hx
      rcases List.mem_append.mp hx with h | h
      · exact hcur x h
      · simpa using List.mem_singleton.mp h ▸ htc
    · by_cases he : cur = []
      · simp only [ipv4TokensGo, if_neg htc, if_pos he] at ht
        exact ih [] (by simp) t ht c hc
      · simp only [ipv4TokensGo, if_neg htc, if_neg he] at ht
        rcases List.mem_cons.mp ht with h | h
        · exact hcur c (h ▸ hc)
        · exact ih [] (by simp) t h c hc

/-- Characters of the parts of a split never equal the separator, and all
come from the accumulator or the input. -/
theorem splitOnCharGo_chars (sep : Char) (l : List Char) : ∀ cur : List Char,
    (∀ c ∈ cur, c ≠ sep) →
    ∀ p ∈ splitOnCharGo sep cur l, ∀ c ∈ p, (c ∈ cur ∨ c ∈ l) ∧ c ≠ sep := by
  induction l with
  | nil =>
    intro cur hcur p hp c hc
    simp only [splitOnCharGo, List.mem_singleton] at hp
    subst hp
    exact ⟨Or.inl hc, hcur c hc⟩
  | cons c0 rest ih =>
    intro cur hcur p hp c hc
    by_cases hsep : c0 = sep
    · simp only [splitOnCharGo, if_pos hsep] at hp
      rcases List.mem_cons.mp hp with h | h
      · exact ⟨Or.inl (h ▸ hc), hcur c (h ▸ hc)⟩
      · have := ih [] (by simp) p h c hc
        rcases this.1 with h2 | h2
        · simp at h2
        · exact ⟨Or.inr (List.mem_cons_of_mem c0 h2), this.2⟩
    · simp only [splitOnCharGo, if_neg hsep] at hp
      have hres := ih (cur ++ [c0]) ?_ p hp c hc
      · rcases hres.1 with h2 | h2
        · rcases List.mem_append.mp h2 with h3 | h3
          · exact ⟨Or.inl h3, hres.2⟩
          · have heq : c = c0 := List.mem_singleton.mp h3
            exact ⟨Or.inr (heq ▸ List.mem_cons_self c0 rest), hres.2⟩
        · exact ⟨Or.inr (List.mem_cons_of_mem c0 h2), hres.2⟩
      · intro x hx
        rcases List.mem_append.mp hx with h3 | h3
        · exact hcur x h3
        · exact List.mem_singleton.mp h3 ▸ hsep

theorem digit_ne_plus {c : Char} (h : c.isDigit = true) : c ≠ '+' := by
  intro he
  subst he
  simp [Char.isDigit] at h

/-- On digit/dot tokens the source predicate `is_ipv4_candidate` agrees
with the specification's description of an IPv4 token. -/
theorem is_ipv4_candidate_iff_spec (t : List Char)
    (htok : ∀ c ∈ t, isTokenChar c = true) :
    is_ipv4_candidate t = true ↔ SpecIpv4 t := by
  have hparts : ∀ p ∈ splitOnChar '.' t, ∀ c ∈ p, c.isDigit = true := by
    intro p hp c hc
    have h := splitOnCharGo_chars '.' t [] (by simp) p hp c hc
    rcases h.1 with h2 | h2
    · simp at h2
    · have := htok c h2
      simp only [isTokenChar, Bool.or_eq_true, beq_iff_eq] at this
      rcases this with h3 | h3
      · exact h3
      · exact absurd h3 h.2
  unfold is_ipv4_candidate SpecIpv4
  simp only [Bool.and_eq_true, beq_iff_eq, List.all_eq_true]
  constructor
  · rintro ⟨hlen, hall⟩
    refine ⟨hlen, fun p hp => ?_⟩
    have hdig := hparts p hp
    have hx := hall p hp
    simp only [Bool.and_eq_true, decide_eq_true_eq] at hx
    obtain ⟨⟨hne, hle⟩, hsome⟩ := hx
    rcases p with _ | ⟨c0, p'⟩
    · simp at hne
    · have hc0 : c0.isDigit = true := hdig c0 (by simp)
      have hplus : c0 ≠ '+' := digit_ne_plus hc0
      have hall2 : (c0 :: p').all Char.isDigit = true :=
        List.all_eq_true.mpr hdig
      refine ⟨by simp, hle, hdig, ?_⟩
      by_cases hv : digitsVal (c0 :: p') ≤ 255
      · exact hv
      · exfalso
        simp [parseU8, hplus, parseU8Digits, hall2, hv] at hsome
  · rintro ⟨hlen, hall⟩
    refine ⟨hlen, fun p hp => ?_⟩
    obtain ⟨h1, h2, h3, h4⟩ := hall p hp
    rcases p with _ | ⟨c0, p'⟩
    · simp at h1
    · have hplus : c0 ≠ '+' := digit_ne_plus (h3 c0 (by simp))
      have hall2 : (c0 :: p').all Char.isDigit = true :=
        List.all_eq_true.mpr h3
      simp only [Bool.and_eq_true, List.isEmpty_cons, Bool.not_false, decide_eq_true_eq]
      refine ⟨⟨by simp, by simpa using h2⟩, ?_⟩
      simp [parseU8, hplus, parseU8Digits, hall2, h4]

/-- `extract_ipv4` never returns an empty token. -/
theorem extract_ipv4_ne_nil {l t : List Char} (h : extract_ipv4 l = some t) :
    t ≠ [] := by
  intro he
  subst he
  rw [extract_ipv4_eq_find_token] at h
  have := List.find?_some h
  simp [is_ipv4_candidate, splitOnChar, splitOnCharGo] at this

/-- The guest-output sentinel `VIBEBOX_IPV4=`. -/
def ipv4Marker : List Char := "VIBEBOX_IPV4=".data

/-- Leading-junk removal applied to each assembled line in
`spawn_manager_io`: `line.trim_start_matches(['\r', ' '])`. -/
def cleanLine (line : List Char) : List Char :=
  line.dropWhile fun c => c == '\r' || c == ' '

/-- The `VIBEBOX_IPV4=` branch of the `on_output` closure in
`spawn_manager_io` (src/vm_manager.rs): find the marker, extract an IPv4
token from the text after it, and persist it iff it is nonempty and
differs from the stored `vm_ipv4`.  Returns the new stored value and
whether `write_instance_config` was invoked. -/
def processIpv4Line (current : Option (List Char)) (cleaned : List Char) :
    Option (List Char) × Bool :=
  match splitOnce ipv4Marker cleaned with
  | none => (current, false)
  | some p =>
    let ip := (extract_ipv4 p.2).getD []
    if ip ≠ [] ∧ current ≠ some ip then (some ip, true) else (current, false)

/-- Per-line handling: clean the line, then run the IPv4 branch. -/
def processOutputLine (current : Option (List Char)) (line : List Char) :
    Option (List Char) × Bool :=
  processIpv4Line current (cleanLine line)

theorem processIpv4Line_writes_iff (cur : Option (List Char))
    (cleaned : List Char) :
    (processIpv4Line cur cleaned).2 = true ↔
      ∃ pre ipRaw ip, splitOnce ipv4Marker cleaned = some (pre, ipRaw) ∧
        extract_ipv4 ipRaw = some ip ∧ cur ≠ some ip := by
  rcases hsp : splitOnce ipv4Marker cleaned with _ | ⟨pre, ipRaw⟩
  · simp [processIpv4Line, hsp]
  · rcases hex : extract_ipv4 ipRaw with _ | ip
    · simp [processIpv4Line, hsp, hex]
    · have hne := extract_ipv4_ne_nil hex
      by_cases hdiff : cur = some ip
      · simp [processIpv4Line, hsp, hex, hdiff]
      · simp only [processIpv4Line, hsp, hex, Option.getD_some, ne_eq, hne,
          not_false_iff, true_and, hdiff, if_pos, Option.some.injEq]
        simp [hdiff]
        exact ⟨pre, ipRaw, ⟨rfl, rfl⟩, ip, hex, hdiff⟩

theorem processIpv4Line_idem (cur : Option (List Char)) (cleaned : List Char) :
    (processIpv4Line (processIpv4Line cur cleaned).1 cleaned).2 = false ∧
    (processIpv4Line (processIpv4Line cur cleaned).1 cleaned).1
      = (processIpv4Line cur cleaned).1 := by
  rcases hsp : splitOnce ipv4Marker cleaned with _ | ⟨pre, ipRaw⟩
  · simp [processIpv4Line, hsp]
  · rcases hex : extract_ipv4 ipRaw with _ | ip
    · simp [processIpv4Line, hsp, hex]
    · have hne := extract_ipv4_ne_nil hex
      by_cases hdiff : cur = some ip
      · simp [processIpv4Line, hsp, hex, hdiff]
      · simp [processIpv4Line, hsp, hex, hdiff, hne]

/-- C5: `extract_ipv4` returns the first maximal digit/dot token of its
input that `is_ipv4_candidate` accepts; on digit/dot tokens
`is_ipv4_candidate` coincides with the specification's "four
dot-separated parts of 1–3 digits each at most 255"; and the
`spawn_manager_io` line handler persists an extracted address iff it
differs from the stored `vm_ipv4` value, so processing the same line
twice writes at most once. -/
theorem c5_ipv4_extraction_and_persistence (line t : List Char)
    (cur : Option (List Char)) (ht : t ∈ ipv4Tokens line) :
    (extract_ipv4 line = (ipv4Tokens line).find? is_ipv4_candidate) ∧
    (is_ipv4_candidate t = true ↔ SpecIpv4 t) ∧
    ((processOutputLine cur line).2 = true ↔
       ∃ pre ipRaw ip,
         splitOnce ipv4Marker (cleanLine line) = some (pre, ipRaw) ∧
         extract_ipv4 ipRaw = some ip ∧ cur ≠ some ip) ∧
    ((processOutputLine (processOutputLine cur line).1 line).2 = false ∧
     (processOutputLine (processOutputLine cur line).1 line).1
       = (processOutputLine cur line).1) := by
  refine ⟨extract_ipv4_eq_find_token line, ?_, ?_, ?_⟩
  · exact is_ipv4_candidate_iff_spec t
      (ipv4TokensGo_chars line [] (by simp) t ht)
  · exact processIpv4Line_writes_iff cur (cleanLine line)
  · exact processIpv4Line_idem cur (cleanLine line)

theorem c5_ipv4_extraction_and_persistence_witness :
    ("10.0.42.7".data ∈ ipv4Tokens "eth0 inet VIBEBOX_IPV4=10.0.42.7 metric 100".data) ∧
    (is_ipv4_candidate "10.0.42.7".data = true ↔ SpecIpv4 "10.0.42.7".data) ∧
    ((processOutputLine none "eth0 inet VIBEBOX_IPV4=10.0.42.7 metric 100".data).2
       = true ↔
     ∃ pre ipRaw ip,
       splitOnce ipv4Marker
           (cleanLine "eth0 inet VIBEBOX_IPV4=10.0.42.7 metric 100".data)
         = some (pre, ipRaw) ∧
       extract_ipv4 ipRaw = some ip ∧ (none : Option (List Char)) ≠ some ip) ∧
    ((processOutputLine
        (processOutputLine none "eth0 inet VIBEBOX_IPV4=10.0.42.7 metric 100".data).1
        "eth0 inet VIBEBOX_IPV4=10.0.42.7 metric 100".data).2 = false) := by
  have ht : "10.0.42.7".data ∈
      ipv4Tokens "eth0 inet VIBEBOX_IPV4=10.0.42.7 metric 100".data := by decide
  have h := c5_ipv4_extraction_and_persistence
    "eth0 inet VIBEBOX_IPV4=10.0.42.7 metric 100".data "10.0.42.7".data none ht
  exact ⟨ht, h.2.1, h.2.2.1, h.2.2.2.1⟩

/-! ## Mount translation (src/vm_manager.rs rewrite_mount_spec,
render_home_links_script) -/

/-- `pub const PROJECT_GUEST_BASE: &str = "/usr/local/vibebox-mounts";` -/
def PROJECT_GUEST_BASE : List Char := "/usr/local/vibebox-mounts".data

/-- ASCII single quote (39). -/
def squote : Char := Char.ofNat 39

/-- ASCII left curly bracket (123). -/
def lbrace : Char := Char.ofNat 123

/-- ASCII right curly bracket (125). -/
def rbrace : Char := Char.ofNat 125

/-- `struct HomeLink` of src/vm_manager.rs. -/
structure HomeLink where
  source : List Char
  target : List Char
  deriving DecidableEq, Repr

/-- The guest-path classification inside `rewrite_mount_spec`: determines
whether a guest path resolves under the ssh user's home and, if so, the
relative path beneath it. -/
def homeRel (ssh_user guest : List Char) : List Char × Bool :=
  if guest = "~".data then ([], true)
  else if ("~/".data).isPrefixOf guest then (guest.drop 2, true)
  else if guest = "/home/".data ++ ssh_user then ([], true)
  else if ("/home/".data ++ ssh_user ++ "/".data).isPrefixOf guest then
    (guest.drop (("/home/".data ++ ssh_user).length + 1), true)
  else ([], false)

/-- `/usr/local/vibebox-mounts/<rel>` (the base itself when `rel` is
empty). -/
def rootPathOf (rel : List Char) : List Char :=
  if rel = [] then PROJECT_GUEST_BASE else PROJECT_GUEST_BASE ++ "/".data ++ rel

/-- `/home/<ssh_user>/<rel>` (the home directory itself when `rel` is
empty). -/
def targetPathOf (ssh_user rel : List Char) : List Char :=
  if rel = [] then "/home/".data ++ ssh_user
  else "/home/".data ++ ssh_user ++ "/".data ++ rel

/-- `fn rewrite_mount_spec(spec: &str, ssh_user: &str)`: split on `':'`;
reject arities outside 2..=3 unchanged; home-rooted guest paths are
redirected below `PROJECT_GUEST_BASE` and paired with a `HomeLink`;
everything else is returned unchanged. -/
def rewrite_mount_spec (spec ssh_user : List Char) :
    List Char × Option HomeLink :=
  let parts := splitOnChar ':' spec
  if parts.length < 2 ∨ parts.length > 3 then (spec, none)
  else
    let host := parts.getD 0 []
    let guest := parts.getD 1 []
    let mode := parts[2]?
    let hr := homeRel ssh_user guest
    if hr.2 = false then (spec, none)
    else
      let root_path := rootPathOf hr.1
      let target := targetPathOf ssh_user hr.1
      let rewritten :=
        match mode with
        | some m => host ++ ":".data ++ root_path ++ ":".data ++ m
        | none => host ++ ":".data ++ root_path
      (rewritten, some ⟨root_path, target⟩)

/-- `fn shell_escape`: single-quote the value, replacing every embedded
single quote by the five-character sequence quote, double-quote, quote,
double-quote, quote. -/
def shell_escape (value : List Char) : List Char :=
  [squote] ++
    (value.flatMap fun c =>
      if c = squote then [squote, '"', squote, '"', squote] else [c]) ++
    [squote]

/-- The per-link line pushed by `render_home_links_script`:
`link_home <escaped src> <escaped dest>`. -/
def linkHomeLine (link : HomeLink) : List Char :=
  "link_home ".data ++ shell_escape link.source ++ " ".data ++
    shell_escape link.target

/-- The fixed `link_home()` shell-function header of
`render_home_links_script` (15 lines; the `chown` line interpolates the
ssh user). -/
def homeLinksHeader (ssh_user : List Char) : List (List Char) :=
  [ "link_home() ".data ++ [lbrace],
    "  src=\"$1\"".data,
    "  dest=\"$2\"".data,
    "  if [ -L \"$dest\" ]; then".data,
    "    current=\"$(readlink \"$dest\" || true)\"".data,
    "    if [ \"$current\" != \"$src\" ]; then".data,
    "      rm -f \"$dest\"".data,
    "    fi".data,
    "  fi".data,
    "  if [ ! -e \"$dest\" ]; then".data,
    "    mkdir -p \"$(dirname \"$dest\")\"".data,
    "    ln -s \"$src\" \"$dest\"".data,
    "  fi".data,
    "  chown -h \"".data ++ ssh_user ++ ":".data ++ ssh_user ++
      "\" \"$dest\" 2>/dev/null || true".data,
    [rbrace] ]

/-- The line list built by `fn render_home_links_script` before joining. -/
def render_home_links_lines (links : List HomeLink) (ssh_user : List Char) :
    List (List Char) :=
  homeLinksHeader ssh_user ++ links.map linkHomeLine

/-- `fn render_home_links_script`: the empty string when there are no
links, otherwise the lines joined with newlines. -/
def render_home_links_script (links : List HomeLink) (ssh_user : List Char) :
    List Char :=
  if links = [] then []
  else List.intercalate "\n".data (render_home_links_lines links ssh_user)

/-- The specification's notion of a home-rooted guest path: `~`,
`~/<rel>`, `/home/<ssh_user>`, or `/home/<ssh_user>/<rel>`. -/
def IsHomeRooted (ssh_user guest : List Char) : Prop :=
  guest = "~".data ∨ "~/".data <+: guest ∨
    guest = "/home/".data ++ ssh_user ∨
    ("/home/".data ++ ssh_user ++ "/".data) <+: guest

/-- A string free of `':'`, so it occupies exactly one field of a mount
spec. -/
def NoColon (l : List Char) : Prop := ∀ c ∈ l, c ≠ ':'

instance noColonDecidable (l : List Char) : Decidable (NoColon l) :=
  List.decidableBAll (fun c => c ≠ ':') l

theorem splitOnCharGo_no_sep (sep : Char) (a : List Char)
    (ha : ∀ c ∈ a, c ≠ sep) : ∀ cur, splitOnCharGo sep cur a = [cur ++ a] := by
  induction a with
  | nil => intro cur; simp [splitOnCharGo]
  | cons c rest ih =>
    intro cur
    have hc : c ≠ sep := ha c (by simp)
    rw [splitOnCharGo, if_neg hc, ih (fun x hx => ha x (List.mem_cons_of_mem c hx))]
    simp

theorem splitOnCharGo_append_sep (sep : Char) (a rest : List Char)
    (ha : ∀ c ∈ a, c ≠ sep) : ∀ cur,
    splitOnCharGo sep cur (a ++ sep :: rest)
      = (cur ++ a) :: splitOnCharGo sep [] rest := by
  induction a with
  | nil => intro cur; simp [splitOnCharGo]
  | cons c a' ih =>
    intro cur
    have hc : c ≠ sep := ha c (by simp)
    rw [List.cons_append, splitOnCharGo, if_neg hc,
      ih (fun x hx => ha x (List.mem_cons_of_mem c hx))]
    simp

theorem splitOnChar_three (sep : Char) (a b c : List Char)
    (ha : ∀ x ∈ a, x ≠ sep) (hb : ∀ x ∈ b, x ≠ sep) (hc : ∀ x ∈ c, x ≠ sep) :
    splitOnChar sep (a ++ sep :: (b ++ sep :: c)) = [a, b, c] := by
  rw [splitOnChar, splitOnCharGo_append_sep sep a _ ha,
    splitOnCharGo_append_sep sep b _ hb, splitOnCharGo_no_sep sep c hc]
  simp

theorem splitOnChar_two (sep : Char) (a b : List Char)
    (ha : ∀ x ∈ a, x ≠ sep) (hb : ∀ x ∈ b, x ≠ sep) :
    splitOnChar sep (a ++ sep :: b) = [a, b] := by
  rw [splitOnChar, splitOnCharGo_append_sep sep a _ ha,
    splitOnCharGo_no_sep sep b hb]
  simp

theorem homeRel_classifies (u g : List Char) :
    (homeRel u g).2 = true ↔ IsHomeRooted u g := by
  unfold homeRel IsHomeRooted
  by_cases h1 : g = "~".data
  · rw [if_pos h1]
    simp [h1]
  · rw [if_neg h1]
    by_cases h2 : ("~/".data).isPrefixOf g = true
    · rw [if_pos h2]
      simp [h1, List.isPrefixOf_iff_prefix.mp h2]
    · rw [if_neg h2]
      have h2' : ¬ ("~/".data <+: g) := fun hp =>
        h2 (List.isPrefixOf_iff_prefix.mpr hp)
      by_cases h3 : g = "/home/".data ++ u
      · rw [if_pos h3]
        simp [h3]
      · rw [if_neg h3]
        by_cases h4 : ("/home/".data ++ u ++ "/".data).isPrefixOf g = true
        · rw [if_pos h4]
          simp [h1, h2', h3]
          exact Or.inr (List.isPrefixOf_iff_prefix.mp h4)
        · rw [if_neg h4]
          have h4' : ¬ (("/home/".data ++ u ++ "/".data) <+: g) := fun hp =>
            h4 (List.isPrefixOf_iff_prefix.mpr hp)
          simp [h1, h2']
          exact ⟨h3, h4'⟩

theorem homeRel_tilde (u : List Char) : homeRel u "~".data = ([], true) := by
  unfold homeRel
  rw [if_pos rfl]

theorem homeRel_tilde_slash (u rel : List Char) :
    homeRel u ("~/".data ++ rel) = (rel, true) := by
  have h1 : "~/".data ++ rel ≠ "~".data := by
    intro h
    have := congrArg List.length h
    simp at this
  have h2 : ("~/".data).isPrefixOf ("~/".data ++ rel) = true :=
    List.isPrefixOf_iff_prefix.mpr ⟨rel, rfl⟩
  have h3 : ("~/".data ++ rel).drop 2 = rel := by
    have hl : ("~/".data).length = 2 := rfl
    rw [← hl, List.drop_left]
  unfold homeRel
  rw [if_neg h1, if_pos h2, h3]

theorem homeRel_home (u : List Char) :
    homeRel u ("/home/".data ++ u) = ([], true) := by
  have hsplit : "/home/".data ++ u = '/' :: ("home/".data ++ u) := rfl
  have h1 : "/home/".data ++ u ≠ "~".data := by
    rw [hsplit]
    intro h
    simp at h
  have h2 : ¬ (("~/".data).isPrefixOf ("/home/".data ++ u) = true) := by
    intro h
    have hp := List.isPrefixOf_iff_prefix.mp h
    rw [hsplit] at hp
    have h3 := List.cons_prefix_cons.mp hp
    exact absurd h3.1 (by decide)
  unfold homeRel
  rw [if_neg h1, if_neg h2, if_pos rfl]

theorem homeRel_home_slash (u rel : List Char) :
    homeRel u ("/home/".data ++ u ++ "/".data ++ rel) = (rel, true) := by
  have hassoc : "/home/".data ++ u ++ "/".data ++ rel
      = "/home/".data ++ (u ++ ("/".data ++ rel)) := by
    simp [List.append_assoc]
  have hsplit : "/home/".data ++ u ++ "/".data ++ rel
      = '/' :: ("home/".data ++ (u ++ ("/".data ++ rel))) := by
    rw [hassoc]
    rfl
  have h1 : "/home/".data ++ u ++ "/".data ++ rel ≠ "~".data := by
    rw [hsplit]
    intro h
    simp at h
  have h2 : ¬ (("~/".data).isPrefixOf ("/home/".data ++ u ++ "/".data ++ rel) = true) := by
    intro h
    have hp := List.isPrefixOf_iff_prefix.mp h
    rw [hsplit] at hp
    have h3 := List.cons_prefix_cons.mp hp
    exact absurd h3.1 (by decide)
  have h3 : "/home/".data ++ u ++ "/".data ++ rel ≠ "/home/".data ++ u := by
    intro h
    have := congrArg List.length h
    simp at this
  have h4 : ("/home/".data ++ u ++ "/".data).isPrefixOf
      ("/home/".data ++ u ++ "/".data ++ rel) = true :=
    List.isPrefixOf_iff_prefix.mpr ⟨rel, rfl⟩
  have h5 : ("/home/".data ++ u ++ "/".data ++ rel).drop
      (("/home/".data ++ u).length + 1) = rel := by
    have hlen : ("/home/".data ++ u ++ "/".data).length
        = ("/home/".data ++ u).length + 1 := by simp
    rw [← hlen, List.drop_left]
  unfold homeRel
  rw [if_neg h1, if_neg h2, if_neg h3, if_pos h4, h5]

theorem spec3_cons (host g mode : List Char) :
    host ++ ":".data ++ g ++ ":".data ++ mode
      = host ++ ':' :: (g ++ ':' :: mode) := by
  simp

theorem spec2_cons (host g : List Char) :
    host ++ ":".data ++ g = host ++ ':' :: g := by
  simp

/-- Expected rewrite for a home-rooted three-field spec. -/
theorem rewrite_mount_spec_home3 (host g mode u rel : List Char)
    (hh : NoColon host) (hg : NoColon g) (hm : NoColon mode)
    (hclass : homeRel u g = (rel, true)) :
    rewrite_mount_spec (host ++ ":".data ++ g ++ ":".data ++ mode) u
      = (host ++ ":".data ++ rootPathOf rel ++ ":".data ++ mode,
         some ⟨rootPathOf rel, targetPathOf u rel⟩) := by
  have hsp : splitOnChar ':' (host ++ ':' :: (g ++ ':' :: mode))
      = [host, g, mode] := splitOnChar_three ':' host g mode hh hg hm
  rw [spec3_cons]
  unfold rewrite_mount_spec
  rw [hsp]
  simp [hclass]

/-- Expected rewrite for a home-rooted two-field spec. -/
theorem rewrite_mount_spec_home2 (host g u rel : List Char)
    (hh : NoColon host) (hg : NoColon g)
    (hclass : homeRel u g = (rel, true)) :
    rewrite_mount_spec (host ++ ":".data ++ g) u
      = (host ++ ":".data ++ rootPathOf rel,
         some ⟨rootPathOf rel, targetPathOf u rel⟩) := by
  have hsp : splitOnChar ':' (host ++ ':' :: g) = [host, g] :=
    splitOnChar_two ':' host g hh hg
  rw [spec2_cons]
  unfold rewrite_mount_spec
  rw [hsp]
  simp [hclass]

/-- Non-home-rooted specs are returned unchanged with no link. -/
theorem rewrite_mount_spec_not_home (host g mode u : List Char)
    (hh : NoColon host) (hg : NoColon g) (hm : NoColon mode)
    (hclass : (homeRel u g).2 = false) :
    rewrite_mount_spec (host ++ ":".data ++ g ++ ":".data ++ mode) u
      = (host ++ ":".data ++ g ++ ":".data ++ mode, none) ∧
    rewrite_mount_spec (host ++ ":".data ++ g) u
      = (host ++ ":".data ++ g, none) := by
  have hsp3 : splitOnChar ':' (host ++ ':' :: (g ++ ':' :: mode))
      = [host, g, mode] := splitOnChar_three ':' host g mode hh hg hm
  have hsp2 : splitOnChar ':' (host ++ ':' :: g) = [host, g] :=
    splitOnChar_two ':' host g hh hg
  constructor
  · rw [spec3_cons]
    unfold rewrite_mount_spec
    rw [hsp3]
    simp [hclass]
  · rw [spec2_cons]
    unfold rewrite_mount_spec
    rw [hsp2]
    simp [hclass]

/-- C6: guest paths of the four home-rooted shapes are rewritten below
`/usr/local/vibebox-mounts` with the host and mode preserved and a
`HomeLink` from `/home/<ssh_user>/<rel>` to the rewritten path; the
classification agrees with the specification's notion of home-rooted;
non-home-rooted specs pass through unchanged with no link; and every
link's `link_home` line is rendered into the link-script line list. -/
theorem c6_mount_translation (host g mode u rel : List Char)
    (links : List HomeLink) (link : HomeLink)
    (hh : NoColon host) (hg : NoColon g) (hm : NoColon mode)
    (hmem : link ∈ links) :
    ((homeRel u g).2 = true ↔ IsHomeRooted u g) ∧
    (homeRel u "~".data = ([], true) ∧
     homeRel u ("~/".data ++ rel) = (rel, true) ∧
     homeRel u ("/home/".data ++ u) = ([], true) ∧
     homeRel u ("/home/".data ++ u ++ "/".data ++ rel) = (rel, true)) ∧
    (homeRel u g = (rel, true) →
       rewrite_mount_spec (host ++ ":".data ++ g ++ ":".data ++ mode) u
           = (host ++ ":".data ++ rootPathOf rel ++ ":".data ++ mode,
              some ⟨rootPathOf rel, targetPathOf u rel⟩) ∧
       rewrite_mount_spec (host ++ ":".data ++ g) u
           = (host ++ ":".data ++ rootPathOf rel,
              some ⟨rootPathOf rel, targetPathOf u rel⟩)) ∧
    ((homeRel u g).2 = false →
       rewrite_mount_spec (host ++ ":".data ++ g ++ ":".data ++ mode) u
           = (host ++ ":".data ++ g ++ ":".data ++ mode, none) ∧
       rewrite_mount_spec (host ++ ":".data ++ g) u
           = (host ++ ":".data ++ g, none)) ∧
    linkHomeLine link ∈ render_home_links_lines links u := by
  refine ⟨homeRel_classifies u g,
    ⟨homeRel_tilde u, homeRel_tilde_slash u rel, homeRel_home u,
     homeRel_home_slash u rel⟩, ?_, ?_, ?_⟩
  · intro hclass
    exact ⟨rewrite_mount_spec_home3 host g mode u rel hh hg hm hclass,
      rewrite_mount_spec_home2 host g u rel hh hg hclass⟩
  · intro hclass
    exact rewrite_mount_spec_not_home host g mode u hh hg hm hclass
  · unfold render_home_links_lines
    exact List.mem_append_right _ (List.mem_map_of_mem linkHomeLine hmem)

theorem c6_mount_translation_witness :
    (rewrite_mount_spec ("/src/foo".data ++ ":".data ++ "~/foo".data ++
          ":".data ++ "read-write".data) "vibecoder".data
       = ("/src/foo".data ++ ":".data ++ rootPathOf "foo".data ++
            ":".data ++ "read-write".data,
          some ⟨rootPathOf "foo".data, targetPathOf "vibecoder".data "foo".data⟩)) ∧
    rootPathOf "foo".data = "/usr/local/vibebox-mounts/foo".data ∧
    targetPathOf "vibecoder".data "foo".data = "/home/vibecoder/foo".data ∧
    linkHomeLine ⟨rootPathOf "foo".data, targetPathOf "vibecoder".data "foo".data⟩
      ∈ render_home_links_lines
          [⟨rootPathOf "foo".data, targetPathOf "vibecoder".data "foo".data⟩]
          "vibecoder".data := by
  have h := c6_mount_translation "/src/foo".data "~/foo".data "read-write".data
    "vibecoder".data "foo".data
    [⟨rootPathOf "foo".data, targetPathOf "vibecoder".data "foo".data⟩]
    ⟨rootPathOf "foo".data, targetPathOf "vibecoder".data "foo".data⟩
    (by decide) (by decide) (by decide) (by simp)
  have hclass : homeRel "vibecoder".data "~/foo".data = ("foo".data, true) := by
    have := h.2.1.2.1
    simpa using this
  exact ⟨(h.2.2.1 hclass).1, by decide, by decide, h.2.2.2.2⟩

/-! ## instance.toml persistence (src/instance.rs write_instance_config,
src/session_manager.rs atomic_write) -/

/-- Abstract filesystem operations performed by the two writers.  A
`write` is the non-atomic `fs::write`/`write_all`; `rename` is atomic. -/
inductive FsOp where
  | write (path : String) (data : String)
  | chmod (path : String) (mode : Nat)
  | rename (src : String) (dst : String)
  deriving DecidableEq, Repr

/-- `fn write_instance_config` (src/instance.rs): serialize the config
(abstracted as `data`), `fs::write(path, data)`, then chmod 0600.  There
is no temporary file and no rename. -/
def write_instance_config_ops (path data : String) : List FsOp :=
  [FsOp.write path data, FsOp.chmod path 384]

/-- `fn atomic_write` (src/session_manager.rs): create a temp file in the
target's parent directory (its random name abstracted as `tempName`),
`write_all` + `flush` the content into it, then `persist` (rename) it
onto the target. -/
def atomic_write_ops (tempName path content : String) : List FsOp :=
  [FsOp.write tempName content, FsOp.rename tempName path]

/-- The specification's description of an atomic write: the serialized
document is first written to a temporary file which is then renamed onto
the target path. -/
def IsTempRenameWrite (target data : String) (ops : List FsOp) : Prop :=
  ∃ temp, temp ≠ target ∧ ops = [FsOp.write temp data, FsOp.rename temp target]

/-- Pointwise update of a path-to-content map. -/
def fsUpdate (σ : String → Option String) (p : String) (v : Option String) :
    String → Option String :=
  fun q => if q = p then v else σ q

/-- The intermediate contents a non-atomic `write` exposes: every prefix
of the data, in order. -/
def writeStates (data : String) : List String :=
  (List.range (data.length + 1)).map fun k => data.take k

/-- The contents of `target` observable while running `ops` from the
contents map `σ`: a non-atomic write to the target exposes every prefix;
writes elsewhere, chmods and renames expose a single state each. -/
def observeOps (target : String) :
    List FsOp → (String → Option String) → List (Option String)
  | [], _ => []
  | FsOp.write p d :: rest, σ =>
    (if p = target then (writeStates d).map some else [σ target]) ++
      observeOps target rest (fsUpdate σ p (some d))
  | FsOp.chmod _ _ :: rest, σ => σ target :: observeOps target rest σ
  | FsOp.rename s d :: rest, σ =>
    let σ2 := fsUpdate (fsUpdate σ d (σ s)) s none
    σ2 target :: observeOps target rest σ2

/-- All contents of `target` a concurrent reader can observe across a
trace, including the initial state. -/
def observations (target : String) (ops : List FsOp)
    (σ : String → Option String) : List (Option String) :=
  σ target :: observeOps target ops σ

/-- Counterexample for C7: `write_instance_config` is a plain in-place
`fs::write` followed by a chmod — not a temp-file + rename — and a reader
concurrent with it can observe a truncated document (here the proper
prefix `id =` of the new content, distinct from both the old and the new
document). -/
theorem c7_counterexample :
    (¬ IsTempRenameWrite "/p/.vibebox/instance.toml" "id = \"abc\""
        (write_instance_config_ops "/p/.vibebox/instance.toml" "id = \"abc\"")) ∧
    some "id =" ∈ observations "/p/.vibebox/instance.toml"
        (write_instance_config_ops "/p/.vibebox/instance.toml" "id = \"abc\"")
        (fun _ => some "id = \"old\"") ∧
    (some "id =" : Option String) ≠ some "id = \"abc\"" ∧
    (some "id =" : Option String) ≠ some "id = \"old\"" := by
  refine ⟨?_, by decide, by decide, by decide⟩
  rintro ⟨temp, hne, heq⟩
  simp [write_instance_config_ops] at heq

/-- C7 amended: `write_instance_config` writes the document in place and
chmods it 0600; the temp-file + rename discipline is implemented by
`atomic_write` (used for the session index), under which a reader of the
target only ever observes the old or the new full content. -/
theorem c7_write_instance_config_in_place (path data tempName content : String)
    (old : String → Option String) (ht : tempName ≠ path) :
    write_instance_config_ops path data
      = [FsOp.write path data, FsOp.chmod path 384] ∧
    IsTempRenameWrite path content (atomic_write_ops tempName path content) ∧
    ∀ x ∈ observations path (atomic_write_ops tempName path content) old,
      x = old path ∨ x = some content := by
  have hpt : path ≠ tempName := Ne.symm ht
  refine ⟨rfl, ⟨tempName, ht, rfl⟩, ?_⟩
  intro x hx
  simp only [observations, atomic_write_ops, observeOps, fsUpdate,
    if_neg ht, if_pos rfl, hpt, if_neg hpt, List.singleton_append,
    List.mem_cons, List.not_mem_nil, or_false] at hx
  rcases hx with h | h | h
  · exact Or.inl h
  · exact Or.inl h
  · subst h
    simp [if_neg hpt, if_pos rfl]

theorem c7_write_instance_config_in_place_witness :
    ("/g/.sess.tmp1" : String) ≠ "/g/sessions.toml" ∧
    IsTempRenameWrite "/g/sessions.toml" "c"
      (atomic_write_ops "/g/.sess.tmp1" "/g/sessions.toml" "c") := by
  have ht : ("/g/.sess.tmp1" : String) ≠ "/g/sessions.toml" := by decide
  exact ⟨ht, (c7_write_instance_config_in_place "/g/sessions.toml" "d"
    "/g/.sess.tmp1" "c" (fun _ => none) ht).2.1⟩

/-! ## Spawn lock (src/vm_manager.rs acquire_spawn_lock, is_lock_stale) -/

/-- The parts of the world the locking code consults.  Paths are lists of
components. -/
structure LockWorld where
  fileExists : List String → Bool
  pidFileAt : List String → Option Nat
  sockAt : List String → Bool
  alive : Nat → Bool
  lockPid : List String → Option Nat

/-- The liveness tri-state of §3 of the specification. -/
inductive VmLiveness where
  | runningWithSocket (pid : Nat)
  | runningWithoutSocket (pid : Nat)
  | notRunningOrMissing
  deriving DecidableEq, Repr

/-- Modelled from the spec: `vm_liveness(project_root)` is imported by
src/vm_manager.rs but its definition is not under src/.  §3: derived
"from `vm.pid` + PID-alive check (`signal 0`, ESRCH ⇒ dead, EPERM ⇒
alive) + `vm.sock` file-type check"; a missing or unreadable
`<root>/.vibebox/vm.pid` (also when `root` is not a directory) yields
`NotRunningOrMissing`. -/
def vm_liveness (w : LockWorld) (project_root : List String) : VmLiveness :=
  match w.pidFileAt (project_root ++ [".vibebox", "vm.pid"]) with
  | none => VmLiveness.notRunningOrMissing
  | some pid =>
    if w.alive pid then
      if w.sockAt (project_root ++ [".vibebox", "vm.sock"]) then
        VmLiveness.runningWithSocket pid
      else VmLiveness.runningWithoutSocket pid
    else VmLiveness.notRunningOrMissing

/-- `fn is_lock_stale(project_root: &Path) -> bool` of src/vm_manager.rs:
stale iff `vm_liveness` of the argument is `NotRunningOrMissing` (an
`Err` from `vm_liveness` yields false; the model has no I/O errors). -/
def is_lock_stale (w : LockWorld) (project_root : List String) : Bool :=
  match vm_liveness w project_root with
  | VmLiveness.notRunningOrMissing => true
  | _ => false

/-- Result of one `acquire_spawn_lock` call. -/
inductive LockOutcome where
  | acquired (removedExisting : Bool)
  | heldByOther
  deriving DecidableEq, Repr

/-- `fn acquire_spawn_lock(lock_path: &Path)` of src/vm_manager.rs:
exclusively create the lock; on `AlreadyExists`, consult
`is_lock_stale(lock_path)` — note the lock *file* path is passed where
`is_lock_stale` expects a project root — removing the file and retrying
when stale, else leaving it for the caller to poll-connect. -/
def acquire_spawn_lock (w : LockWorld) (lock_path : List String) : LockOutcome :=
  if w.fileExists lock_path then
    if is_lock_stale w lock_path then LockOutcome.acquired true
    else LockOutcome.heldByOther
  else LockOutcome.acquired false

/-- The staleness rule the claim (and spec §6) describes: a lock is stale
iff the PID recorded in its `pid=<n>` line is not alive. -/
def specLockStale (w : LockWorld) (lock_path : List String) : Bool :=
  match w.lockPid lock_path with
  | some pid => !(w.alive pid)
  | none => true

/-- A world with a spawn lock at `proj/.vibebox/vm.lock` recording the
live PID 1234; nothing exists beneath the lock file (it is a regular
file), so `vm_liveness` of the lock path sees no pid file. -/
def liveLockWorld : LockWorld :=
  { fileExists := fun p => p = ["proj", ".vibebox", "vm.lock"],
    pidFileAt := fun _ => none,
    sockAt := fun _ => false,
    alive := fun pid => pid = 1234,
    lockPid := fun p =>
      if p = ["proj", ".vibebox", "vm.lock"] then some 1234 else none }

/-- C8 fails on the code: `acquire_spawn_lock` passes the lock-file path
to `is_lock_stale`, which probes `<lock>/.vibebox/vm.pid` — a path that
never exists — so every existing lock is judged stale and removed, even
one whose recorded `pid=` holder is alive; the recorded PID is never
consulted.  The claim's rule (`specLockStale`) says this lock is not
stale. -/
theorem c8_live_lock_removed :
    acquire_spawn_lock liveLockWorld ["proj", ".vibebox", "vm.lock"]
      = LockOutcome.acquired true ∧
    liveLockWorld.lockPid ["proj", ".vibebox", "vm.lock"] = some 1234 ∧
    liveLockWorld.alive 1234 = true ∧
    specLockStale liveLockWorld ["proj", ".vibebox", "vm.lock"] = false ∧
    is_lock_stale liveLockWorld ["proj", ".vibebox", "vm.lock"] = true := by
  refine ⟨?_, ?_, ?_, ?_, ?_⟩ <;>
    simp [acquire_spawn_lock, is_lock_stale, vm_liveness, liveLockWorld,
      specLockStale]

/-! ## Guest-script upload (src/vm.rs script_command_from_content) -/

/-- `let marker = "VIBE_SCRIPT_EOF";` -/
def scriptMarker : List Char := "VIBE_SCRIPT_EOF".data

/-- `script.split_once('\n')`: when the first line starts with `#!` it is
dropped (the wrapper supplies its own shebang), otherwise the script is
kept whole. -/
def scriptBody (script : List Char) : List Char :=
  match splitOnce ['\n'] script with
  | some p => if ("#!".data).isPrefixOf p.1 then p.2 else script
  | none => script

/-- The wrapper text before the `{label}` interpolation point: shebang,
`set -Eeuo pipefail`, the `__vibebox_report_error` function head and the
start of its `echo VIBEBOX_SCRIPT_ERROR:` line. -/
def wrapPreA : List Char :=
  "#!/usr/bin/env bash\nset -Eeuo pipefail\n__vibebox_err_reported=0\n__vibebox_report_error() ".data
    ++ [lbrace]
    ++ "\n  local rc=\"$1\"\n  local line=\"$2\"\n  if [ \"$__vibebox_err_reported\" -eq 0 ]; then\n    echo \"VIBEBOX_SCRIPT_ERROR:".data

/-- The wrapper text between the `{label}` interpolation point and the
script body: the rest of the echo line, the function tail and the two
`trap` lines. -/
def wrapPreB : List Char :=
  ":$".data ++ [lbrace] ++ "line".data ++ [rbrace]
    ++ ":$".data ++ [lbrace] ++ "rc".data ++ [rbrace]
    ++ "\"\n    __vibebox_err_reported=1\n  fi\n".data ++ [rbrace]
    ++ "\ntrap ".data ++ [squote]
    ++ "__vibebox_report_error \"$?\" \"$".data ++ [lbrace] ++ "LINENO".data
    ++ [rbrace] ++ "\"".data ++ [squote]
    ++ " ERR\ntrap ".data ++ [squote]
    ++ "rc=\"$?\"; if [ \"$rc\" -ne 0 ]; then __vibebox_report_error \"$rc\" \"$".data
    ++ [lbrace] ++ "LINENO".data ++ [rbrace] ++ "\"; fi".data ++ [squote]
    ++ " EXIT\n".data

/-- `wrapped_script`: error-trap preamble (with the label interpolated
into the report line), then the body, then a newline. -/
def wrappedScript (label script : List Char) : List Char :=
  wrapPreA ++ label ++ wrapPreB ++ scriptBody script ++ "\n".data

/-- `/tmp/vibe-scripts/<label>.sh`. -/
def guestScriptPath (label : List Char) : List Char :=
  "/tmp/vibe-scripts/".data ++ label ++ ".sh".data

/-- The assembled command: mkdir, heredoc `cat` of the wrapped script
between two `VIBE_SCRIPT_EOF` marker lines, `chmod +x`, then execute. -/
def uploadCommand (label script : List Char) : List Char :=
  "mkdir -p /tmp/vibe-scripts\ncat >".data ++ guestScriptPath label
    ++ " <<".data ++ [squote] ++ scriptMarker ++ [squote] ++ "\n".data
    ++ wrappedScript label script ++ "\n".data ++ scriptMarker ++ "\n".data
    ++ "chmod +x ".data ++ guestScriptPath label ++ "\n".data
    ++ guestScriptPath label

/-- `fn script_command_from_content(label, script)` of src/vm.rs: `none`
models the `bail!` when the script text contains the heredoc marker;
otherwise the upload command is returned. -/
def script_command_from_content (label script : List Char) :
    Option (List Char) :=
  if scriptMarker <:+: script then none
  else some (uploadCommand label script)

/-- `split_once` at a single character finds exactly the first occurrence:
if `c` does not occur in `a`, the input `a ++ c :: b` splits as `(a, b)`. -/
theorem splitOnce_single_char (c : Char) (b : List Char) :
    ∀ a : List Char, c ∉ a → splitOnce [c] (a ++ c :: b) = some (a, b) := by
  intro a
  induction a with
  | nil =>
    intro _
    have hp : ([c]).isPrefixOf (c :: b) = true :=
      List.isPrefixOf_iff_prefix.mpr ⟨b, rfl⟩
    simp [splitOnce, hp]
  | cons x a' ih =>
    intro hnotin
    have hx : x ≠ c := by
      intro h
      exact hnotin (by simp [h])
    have hp : ¬ (([c]).isPrefixOf (x :: (a' ++ c :: b)) = true) := by
      intro h
      have := List.cons_prefix_cons.mp (List.isPrefixOf_iff_prefix.mp h)
      exact hx this.1.symm
    rw [List.cons_append, splitOnce, if_neg hp,
      ih (fun h => hnotin (List.mem_cons_of_mem x h))]
    rfl

/-- The body kept by `scriptBody` is an infix of the original script. -/
theorem scriptBody_within (script : List Char) :
    scriptBody script <:+: script := by
  unfold scriptBody
  rcases hsp : splitOnce ['\n'] script with _ | p
  · exact List.infix_rfl
  · show (if ("#!".data).isPrefixOf p.1 = true then p.2 else script) <:+: script
    by_cases hb : ("#!".data).isPrefixOf p.1 = true
    · rw [if_pos hb]
      have hdec := splitOnce_some_decomp (l := script) (a := p.1) (b := p.2)
        (by rw [hsp])
      exact ⟨p.1 ++ ['\n'], [], by simp [hdec, List.append_assoc]⟩
    · rw [if_neg hb]

/-- C10: the upload command is refused exactly for scripts containing the
heredoc marker; otherwise the returned command uploads the wrapped script
(whose body, being an infix of a marker-free script, is itself
marker-free, so the script cannot terminate its own heredoc) and any
leading `#!` line of the input is dropped in favour of the wrapper's
error-trap preamble. -/
theorem c10_script_upload (label script : List Char) :
    (script_command_from_content label script = none ↔
       scriptMarker <:+: script) ∧
    (¬ scriptMarker <:+: script →
       script_command_from_content label script
         = some (uploadCommand label script) ∧
       ¬ scriptMarker <:+: scriptBody script) ∧
    (∀ first rest, script = first ++ '\n' :: rest →
       ("#!".data).isPrefixOf first → '\n' ∉ first →
       scriptBody script = rest) ∧
    (∀ p, splitOnce ['\n'] script = some p →
       ¬ ("#!".data).isPrefixOf p.1 = true → scriptBody script = script) ∧
    (splitOnce ['\n'] script = none → scriptBody script = script) := by
  refine ⟨?_, ?_, ?_, ?_, ?_⟩
  · by_cases h : scriptMarker <:+: script <;>
      simp [script_command_from_content, h]
  · intro h
    refine ⟨by simp [script_command_from_content, h], ?_⟩
    intro hbody
    exact h (hbody.trans (scriptBody_within script))
  · intro first rest hscript hshebang hnl
    have hsp : splitOnce ['\n'] script = some (first, rest) := by
      rw [hscript]
      exact splitOnce_single_char '\n' rest first hnl
    simp [scriptBody, hsp, hshebang]
  · intro p hsp hns
    simp [scriptBody, hsp, hns]
  · intro hsp
    simp [scriptBody, hsp]

theorem c10_script_upload_witness :
    (¬ scriptMarker <:+: "#!/bin/sh\necho hi".data) ∧
    (script_command_from_content "test".data "#!/bin/sh\necho hi".data
       = some (uploadCommand "test".data "#!/bin/sh\necho hi".data) ∧
     ¬ scriptMarker <:+: scriptBody "#!/bin/sh\necho hi".data) ∧
    scriptBody "#!/bin/sh\necho hi".data = "echo hi".data ∧
    (script_command_from_content "t".data
        ("x VIBE_SCRIPT_EOF y".data) = none) := by
  have hfree : ¬ scriptMarker <:+: "#!/bin/sh\necho hi".data := by decide
  have h := c10_script_upload "test".data "#!/bin/sh\necho hi".data
  refine ⟨hfree, h.2.1 hfree, ?_, ?_⟩
  · exact h.2.2.1 "#!/bin/sh".data "echo hi".data (by decide) (by decide)
      (by decide)
  · exact (c10_script_upload "t".data "x VIBE_SCRIPT_EOF y".data).1.mpr
      (by decide)

end Vibebox
